import Mathlib

/-!
Shallow embedding of the task-store module `my_todo/my_todo.py`.

The Python module defines a class `TaskDB` holding an in-memory list of task
records (`task_data`) backed by a JSON file.  We embed the data model and the
operations `read_data`, `sort_data`, `get_next_index`, `write_data`,
`task_add`, `task_query`, `task_done` and `task_count_get` as pure Lean
functions over an explicit store state.

The backing file is modelled at the level of its parse result: a file is
absent, empty (zero-length, hence not valid JSON), or has contents that
either fail to parse as JSON (`written none`) or parse to a list of records
(`written (some l)`).  `json.dumps` followed by `json.load` recovers exactly
the dumped list, so `write_data` stores the written list itself.  Operations
that raise in Python (`task_count_get` indexing past the end) return
`Option`, with `none` for the raised `IndexError`.
-/

/-- A task record `{'title': ..., 'description': ..., 'id': ...}` as kept in
`task_data` and in the JSON file. -/
structure TaskRec where
  title : String
  description : String
  id : Int
deriving DecidableEq

/-- State of the backing file: absent, existing but zero-length (as created by
opening a missing file in mode `w`), or existing with contents that parse to
`some l` or fail to parse (`none`). -/
inductive FileState where
  | absent : FileState
  | emptyFile : FileState
  | written : Option (List TaskRec) → FileState
deriving DecidableEq

/-- `TaskDB.read_data`: opens the file in mode `r` when it exists and mode `w`
(creating an empty file) when it does not, then `json.load`s it, returning
`[]` on `JSONDecodeError` (an empty or malformed file).  Returns the file
state after the call together with the loaded list. -/
def read_data : FileState → FileState × List TaskRec
  | FileState.absent => (FileState.emptyFile, [])
  | FileState.emptyFile => (FileState.emptyFile, [])
  | FileState.written none => (FileState.written none, [])
  | FileState.written (some l) => (FileState.written (some l), l)

/-- The store: in-memory collection plus backing file. -/
structure TaskDB where
  task_data : List TaskRec
  file : FileState
deriving DecidableEq

/-- `TaskDB.__init__`: reads (or creates) the backing file and initialises
`task_data` from it.  The working-directory/path fields are out of scope. -/
def initDB (fs : FileState) : TaskDB :=
  { task_data := (read_data fs).2, file := (read_data fs).1 }

/-- One insertion step of a stable sort in descending `id` order: the new
element is placed before the first strictly smaller `id` and after all
greater-or-equal ones. -/
def insertTask (x : TaskRec) : List TaskRec → List TaskRec
  | [] => [x]
  | y :: ys => if y.id < x.id then x :: y :: ys else y :: insertTask x ys

/-- `TaskDB.sort_data`: `self.task_data.sort(key=lambda x: x['id'],
reverse=True)` — a stable sort in descending `id` order, embedded as a stable
insertion sort (stable sorts by the same key agree on all inputs). -/
def sort_data (l : List TaskRec) : List TaskRec :=
  l.foldl (fun acc x => insertTask x acc) []

/-- `TaskDB.get_next_index`: `1` on an empty collection, otherwise
`task_data[0]['id'] + 1`. -/
def get_next_index (db : TaskDB) : Int :=
  match db.task_data with
  | [] => 1
  | x :: _ => x.id + 1

/-- `TaskDB.write_data`: sorts `task_data` in place (descending by id) and
overwrites the backing file with its JSON serialisation. -/
def write_data (db : TaskDB) : TaskDB :=
  { task_data := sort_data db.task_data
    file := FileState.written (some (sort_data db.task_data)) }

/-- `TaskDB.task_add`: appends `{'title': title, 'description': description,
'id': get_next_index()}` and writes the file. -/
def task_add (db : TaskDB) (title description : String) : TaskDB :=
  write_data
    { task_data :=
        db.task_data ++ [{ title := title, description := description, id := get_next_index db }]
      file := db.file }

/-- `str.lower` applied to a string, viewed as its list of characters
(Python then concatenates the lowered title and description). -/
def lowerStr (s : String) : List Char := s.data.map Char.toLower

/-- Whether the first list is an initial segment of the second. -/
def leadsList : List Char → List Char → Bool
  | [], _ => true
  | _ :: _, [] => false
  | a :: as, b :: bs => a == b && leadsList as bs

/-- Python's substring test `needle in hay`, on character lists. -/
def containsSub : List Char → List Char → Bool
  | [], needle => needle.isEmpty
  | c :: t, needle => leadsList needle (c :: t) || containsSub t needle

/-- The match test of `TaskDB.task_query`:
`query.lower() in item['title'].lower() + item['description'].lower()`. -/
def taskMatches (q : String) (t : TaskRec) : Bool :=
  containsSub (lowerStr t.title ++ lowerStr t.description) (lowerStr q)

/-- An element of a `task_query` result: either a stored task record or the
synthetic dictionary `{'info': ..., 'query': ...}` produced when nothing
matches. -/
inductive QueryResult where
  | task : TaskRec → QueryResult
  | noMatch : String → String → QueryResult
deriving DecidableEq

/-- The scan loop of `TaskDB.task_query`, accumulating matches in order. -/
def queryLoop (q : String) : List TaskRec → List QueryResult
  | [] => []
  | item :: rest =>
      if taskMatches q item then QueryResult.task item :: queryLoop q rest
      else queryLoop q rest

/-- `TaskDB.task_query`: all matching records in collection order, or the
single synthetic record `{'info': 'Нет подоходящих задач', 'query': query}`
when there are none. -/
def task_query (db : TaskDB) (query : String) : List QueryResult :=
  let task_list := queryLoop query db.task_data
  if task_list.length = 0 then [QueryResult.noMatch "Нет подоходящих задач" query]
  else task_list

/-- The loop of `TaskDB.task_done`.  Python iterates by index `i` over the
mutating list; `count` trails `i` by the number of pops so far.  On a match it
runs `task_data.pop(count)` (always in range, since `count ≤ i < len`)
followed by `write_data()`, which re-sorts the list in place and rewrites the
file.  `fuel` bounds the iterations; the initial length suffices because `i`
grows each step and the length never grows. -/
def doneLoop : Nat → List TaskRec → FileState → Nat → Nat → Int → List TaskRec × FileState
  | 0, data, fs, _, _, _ => (data, fs)
  | fuel + 1, data, fs, i, count, tid =>
    match data[i]? with
    | none => (data, fs)
    | some item =>
      if item.id = tid then
        doneLoop fuel (sort_data (data.eraseIdx count))
          (FileState.written (some (sort_data (data.eraseIdx count)))) (i + 1) count tid
      else
        doneLoop fuel data fs (i + 1) (count + 1) tid

/-- `TaskDB.task_done`: removes the record(s) with the given id as the loop
above does, writing the file on each removal; a silent no-op when no record
matches. -/
def task_done (db : TaskDB) (tid : Int) : TaskDB :=
  { task_data := (doneLoop db.task_data.length db.task_data db.file 0 0 tid).1
    file := (doneLoop db.task_data.length db.task_data db.file 0 0 tid).2 }

/-- The loop of `TaskDB.task_count_get`: `for task_item in range(count):
return_data.append(task_data[task_item])`, with `none` for the `IndexError`
raised at the first out-of-range index. -/
def fetchLoop (data : List TaskRec) : Nat → Option (List TaskRec)
  | 0 => some []
  | n + 1 =>
    match fetchLoop data n, data[n]? with
    | some acc, some t => some (acc ++ [t])
    | _, _ => none

/-- `TaskDB.task_count_get`: `[]` on an empty collection, otherwise the first
`count` records, raising (`none`) when `count` exceeds the length.  `count` is
an `Int` because the CLI passes `int(args.count)`; `range` of a non-positive
number is empty. -/
def task_count_get (db : TaskDB) (count : Int) : Option (List TaskRec) :=
  if db.task_data.length = 0 then some []
  else fetchLoop db.task_data count.toNat

/-- A store operation: `task_add` or `task_done`. -/
inductive Op where
  | add : String → String → Op
  | complete : Int → Op
deriving DecidableEq

/-- Apply one operation to the store. -/
def applyOp (db : TaskDB) : Op → TaskDB
  | Op.add t d => task_add db t d
  | Op.complete i => task_done db i

/-- Run a sequence of operations. -/
def runOps (db : TaskDB) : List Op → TaskDB
  | [] => db
  | op :: rest => runOps (applyOp db op) rest

/-- The ids assigned by a sequence of `task_add` calls, in call order: each
call stamps its record with `get_next_index` of the state it sees. -/
def assignedIds (db : TaskDB) : List (String × String) → List Int
  | [] => []
  | (t, d) :: rest => get_next_index db :: assignedIds (task_add db t d) rest

/-- Descending-id order between records, as maintained by `sort_data`. -/
def idGe (a b : TaskRec) : Prop := b.id ≤ a.id

/-! ### Sorting lemmas -/

theorem insertTask_perm (x : TaskRec) : ∀ l : List TaskRec, List.Perm (insertTask x l) (x :: l)
  | [] => List.Perm.refl _
  | y :: ys => by
      unfold insertTask
      by_cases h : y.id < x.id
      · simp [h]
      · rw [if_neg h]
        exact ((insertTask_perm x ys).cons y).trans (List.Perm.swap x y ys)

theorem foldl_insertTask_perm :
    ∀ (l acc : List TaskRec), List.Perm (l.foldl (fun a x => insertTask x a) acc) (l ++ acc)
  | [], acc => by simp
  | x :: xs, acc => by
      simp only [List.foldl_cons]
      exact ((foldl_insertTask_perm xs (insertTask x acc)).trans
        ((List.Perm.append_left xs (insertTask_perm x acc)).trans List.perm_middle)).trans
        (List.Perm.refl _)

theorem sort_data_perm (l : List TaskRec) : List.Perm (sort_data l) l := by
  simpa using foldl_insertTask_perm l []

theorem insertTask_pairwise (x : TaskRec) :
    ∀ {l : List TaskRec}, l.Pairwise idGe → (insertTask x l).Pairwise idGe := by
  intro l
  induction l with
  | nil => intro _; simp [insertTask, idGe]
  | cons y ys ih =>
      intro h
      rw [List.pairwise_cons] at h
      unfold insertTask
      by_cases hc : y.id < x.id
      · rw [if_pos hc]
        refine List.pairwise_cons.mpr ⟨?_, List.pairwise_cons.mpr h⟩
        intro z hz
        rcases List.mem_cons.mp hz with rfl | hz
        · exact le_of_lt hc
        · exact le_trans (h.1 z hz) (le_of_lt hc)
      · rw [if_neg hc]
        refine List.pairwise_cons.mpr ⟨?_, ih h.2⟩
        intro z hz
        rcases List.mem_cons.mp ((insertTask_perm x ys).mem_iff.mp hz) with h1 | h2
        · subst h1; exact not_lt.mp hc
        · exact h.1 z h2

theorem foldl_insertTask_pairwise :
    ∀ (l acc : List TaskRec), acc.Pairwise idGe →
      (l.foldl (fun a x => insertTask x a) acc).Pairwise idGe
  | [], _, h => h
  | x :: xs, acc, h => by
      simp only [List.foldl_cons]
      exact foldl_insertTask_pairwise xs (insertTask x acc) (insertTask_pairwise x h)

theorem sort_data_pairwise (l : List TaskRec) : (sort_data l).Pairwise idGe :=
  foldl_insertTask_pairwise l [] (List.Pairwise.nil)

theorem pairwise_head_ge {x : TaskRec} {xs : List TaskRec}
    (h : (x :: xs).Pairwise idGe) : ∀ y ∈ x :: xs, y.id ≤ x.id := by
  intro y hy
  rcases List.mem_cons.mp hy with rfl | hy
  · exact le_refl _
  · exact (List.pairwise_cons.mp h).1 y hy

theorem insertTask_append (x : TaskRec) :
    ∀ acc : List TaskRec, (∀ y ∈ acc, ¬ y.id < x.id) → insertTask x acc = acc ++ [x]
  | [], _ => rfl
  | y :: ys, h => by
      unfold insertTask
      rw [if_neg (h y (List.mem_cons_self y ys))]
      rw [insertTask_append x ys (fun z hz => h z (List.mem_cons_of_mem y hz))]
      rfl

theorem foldl_insertTask_of_pairwise :
    ∀ (l acc : List TaskRec), (acc ++ l).Pairwise idGe →
      l.foldl (fun a x => insertTask x a) acc = acc ++ l
  | [], acc, _ => by simp
  | x :: xs, acc, h => by
      have hax : ∀ y ∈ acc, ¬ y.id < x.id := by
        intro y hy
        have := (List.pairwise_append.mp h).2.2 y hy x (List.mem_cons_self x xs)
        exact not_lt.mpr this
      simp only [List.foldl_cons]
      rw [insertTask_append x acc hax]
      have h' : ((acc ++ [x]) ++ xs).Pairwise idGe := by
        simpa [List.append_assoc] using h
      rw [foldl_insertTask_of_pairwise xs (acc ++ [x]) h']
      simp

theorem sort_data_of_pairwise {l : List TaskRec} (h : l.Pairwise idGe) : sort_data l = l := by
  simpa using foldl_insertTask_of_pairwise l [] (by simpa using h)

/-! ### Lemmas about the operation loops -/

theorem fetchLoop_none (data : List TaskRec) :
    ∀ n : Nat, data.length < n → fetchLoop data n = none := by
  intro n
  induction n with
  | zero => intro h; omega
  | succ n ih =>
      intro h
      unfold fetchLoop
      rcases Nat.lt_or_ge data.length n with h' | h'
      · rw [ih h']
      · have hn : data.length = n := by omega
        have : data[n]? = none := by
          rw [List.getElem?_eq_none_iff]
          omega
        rw [this]
        rcases fetchLoop data n with _ | acc <;> rfl

theorem fetchLoop_some (data : List TaskRec) :
    ∀ n : Nat, n ≤ data.length → fetchLoop data n = some (data.take n) := by
  intro n
  induction n with
  | zero => intro _; rfl
  | succ n ih =>
      intro h
      have hn : n < data.length := by omega
      unfold fetchLoop
      have ht : data.take (n + 1) = data.take n ++ [data[n]] := by
        rw [List.take_succ, List.getElem?_eq_getElem hn]
        rfl
      rw [ih (by omega), List.getElem?_eq_getElem hn, ht]

theorem doneLoop_no_match :
    ∀ (fuel : Nat) (data : List TaskRec) (fs : FileState) (i count : Nat) (tid : Int),
      (∀ t ∈ data, t.id ≠ tid) → doneLoop fuel data fs i count tid = (data, fs)
  | 0, _, _, _, _, _, _ => rfl
  | fuel + 1, data, fs, i, count, tid, h => by
      unfold doneLoop
      cases hd : data[i]? with
      | none => rfl
      | some item =>
          have hmem : item ∈ data := List.getElem?_mem hd
          dsimp only
          rw [if_neg (h item hmem)]
          exact doneLoop_no_match fuel data fs (i + 1) (count + 1) tid h

theorem doneLoop_pairwise :
    ∀ (fuel : Nat) (data : List TaskRec) (fs : FileState) (i count : Nat) (tid : Int),
      data.Pairwise idGe → ((doneLoop fuel data fs i count tid).1).Pairwise idGe
  | 0, _, _, _, _, _, h => h
  | fuel + 1, data, fs, i, count, tid, h => by
      unfold doneLoop
      cases data[i]? with
      | none => exact h
      | some item =>
          dsimp only
          by_cases hid : item.id = tid
          · rw [if_pos hid]
            exact doneLoop_pairwise fuel _ _ _ _ _ (sort_data_pairwise _)
          · rw [if_neg hid]
            exact doneLoop_pairwise fuel _ _ _ _ _ h

theorem doneLoop_nodup :
    ∀ (fuel : Nat) (data : List TaskRec) (fs : FileState) (i count : Nat) (tid : Int),
      (data.map TaskRec.id).Nodup →
      (((doneLoop fuel data fs i count tid).1).map TaskRec.id).Nodup
  | 0, _, _, _, _, _, h => h
  | fuel + 1, data, fs, i, count, tid, h => by
      unfold doneLoop
      cases data[i]? with
      | none => exact h
      | some item =>
          dsimp only
          by_cases hid : item.id = tid
          · rw [if_pos hid]
            refine doneLoop_nodup fuel _ _ _ _ _ ?_
            have h1 : ((data.eraseIdx count).map TaskRec.id).Nodup :=
              ((List.eraseIdx_sublist data count).map TaskRec.id).nodup h
            exact (((sort_data_perm (data.eraseIdx count)).map TaskRec.id).nodup_iff).mpr h1
          · rw [if_neg hid]
            exact doneLoop_nodup fuel _ _ _ _ _ h

theorem queryLoop_eq_filter (q : String) :
    ∀ l : List TaskRec, queryLoop q l = (l.filter (taskMatches q)).map QueryResult.task
  | [] => rfl
  | item :: rest => by
      unfold queryLoop
      by_cases h : taskMatches q item
      · rw [if_pos h, queryLoop_eq_filter q rest, List.filter_cons_of_pos h, List.map_cons]
      · rw [if_neg h, queryLoop_eq_filter q rest, List.filter_cons_of_neg h]

theorem containsSub_nil : ∀ hay : List Char, containsSub hay [] = true
  | [] => rfl
  | _ :: _ => rfl

/-! ### Invariants: sortedness and id uniqueness -/

/-- The state invariant maintained by the store: the collection is sorted
descending by id and ids are pairwise distinct. -/
def StoreInv (db : TaskDB) : Prop :=
  db.task_data.Pairwise idGe ∧ (db.task_data.map TaskRec.id).Nodup

theorem mem_id_lt_next {db : TaskDB} (h : db.task_data.Pairwise idGe) :
    ∀ t ∈ db.task_data, t.id < get_next_index db := by
  intro t ht
  unfold get_next_index
  cases hd : db.task_data with
  | nil => rw [hd] at ht; cases ht
  | cons x xs =>
      rw [hd] at ht h
      dsimp only
      exact lt_of_le_of_lt (pairwise_head_ge h t ht) (lt_add_one x.id)

theorem inv_task_add {db : TaskDB} (h : StoreInv db) (t d : String) :
    StoreInv (task_add db t d) := by
  constructor
  · exact sort_data_pairwise _
  · have hperm := (sort_data_perm
      (db.task_data ++ [⟨t, d, get_next_index db⟩])).map TaskRec.id
    refine hperm.nodup_iff.mpr ?_
    rw [List.map_append, List.nodup_append]
    refine ⟨h.2, List.nodup_singleton _, ?_⟩
    intro a ha hb
    simp only [List.map_cons, List.map_nil, List.mem_singleton] at hb
    rcases List.mem_map.mp ha with ⟨u, hu, rfl⟩
    exact absurd hb (ne_of_lt (mem_id_lt_next h.1 u hu))

theorem inv_task_done {db : TaskDB} (h : StoreInv db) (tid : Int) :
    StoreInv (task_done db tid) :=
  ⟨doneLoop_pairwise _ _ _ _ _ _ h.1, doneLoop_nodup _ _ _ _ _ _ h.2⟩

theorem inv_applyOp {db : TaskDB} (h : StoreInv db) (op : Op) : StoreInv (applyOp db op) := by
  cases op with
  | add t d => exact inv_task_add h t d
  | complete i => exact inv_task_done h i

theorem inv_runOps {db : TaskDB} (h : StoreInv db) :
    ∀ ops : List Op, StoreInv (runOps db ops)
  | [] => h
  | op :: rest => inv_runOps (inv_applyOp h op) rest

/-! ### Lemmas about assigned ids -/

theorem next_lt_next_task_add (db : TaskDB) (t d : String) :
    get_next_index db < get_next_index (task_add db t d) := by
  have hmem : (⟨t, d, get_next_index db⟩ : TaskRec) ∈
      sort_data (db.task_data ++ [⟨t, d, get_next_index db⟩]) :=
    (sort_data_perm _).mem_iff.mpr (List.mem_append_right _ (List.mem_singleton.mpr rfl))
  exact @mem_id_lt_next (task_add db t d) (sort_data_pairwise _)
    ⟨t, d, get_next_index db⟩ hmem

theorem assignedIds_ge :
    ∀ (ops : List (String × String)) (db : TaskDB) (x : Int),
      x ∈ assignedIds db ops → get_next_index db ≤ x
  | [], _, _, hx => by cases hx
  | (t, d) :: rest, db, x, hx => by
      rcases List.mem_cons.mp hx with rfl | hx
      · exact le_refl _
      · exact le_trans (le_of_lt (next_lt_next_task_add db t d))
          (assignedIds_ge rest (task_add db t d) x hx)

theorem assignedIds_pairwise :
    ∀ (ops : List (String × String)) (db : TaskDB),
      (assignedIds db ops).Pairwise (· < ·)
  | [], _ => List.Pairwise.nil
  | (t, d) :: rest, db => by
      refine List.pairwise_cons.mpr ⟨?_, assignedIds_pairwise rest (task_add db t d)⟩
      intro x hx
      exact lt_of_lt_of_le (next_lt_next_task_add db t d)
        (assignedIds_ge rest (task_add db t d) x hx)

/-! ### Query characterisation -/

theorem task_query_of_any {db : TaskDB} {s : String}
    (h : db.task_data.any (taskMatches s) = true) :
    task_query db s = (db.task_data.filter (taskMatches s)).map QueryResult.task := by
  have hne : db.task_data.filter (taskMatches s) ≠ [] := by
    intro hnil
    rcases List.any_eq_true.mp h with ⟨x, hx, hpx⟩
    exact (List.filter_eq_nil_iff.mp hnil) x hx hpx
  simp only [task_query]
  rw [queryLoop_eq_filter]
  rw [if_neg (by simpa [List.length_eq_zero] using hne)]

/-! ### The claims -/

/-- C1: on a non-empty collection, `task_count_get` (the spec's
`list_prefix`) with `count` strictly greater than the collection size fails
with the `IndexError` (modelled as `none`); on an empty collection it returns
the empty sequence for every `count`. -/
theorem spec_c1 (db : TaskDB) (count : Int) :
    (db.task_data ≠ [] → (db.task_data.length : Int) < count →
      task_count_get db count = none) ∧
    (db.task_data = [] → task_count_get db count = some []) := by
  constructor
  · intro hne hlt
    unfold task_count_get
    rw [if_neg (fun hz => hne (List.length_eq_zero.mp hz))]
    exact fetchLoop_none _ _ (by omega)
  · intro he
    unfold task_count_get
    rw [if_pos (by rw [he]; rfl)]

/-- C1 witness: a 1-record store fails on `count = 2`; an empty store
returns `[]` on `count = 7`. -/
theorem spec_c1_witness :
    (task_count_get ⟨[⟨"a", "b", 1⟩], FileState.emptyFile⟩ 2 = none) ∧
    (task_count_get ⟨[], FileState.emptyFile⟩ 7 = some []) :=
  ⟨(spec_c1 ⟨[⟨"a", "b", 1⟩], FileState.emptyFile⟩ 2).1 (by decide) (by decide),
   (spec_c1 ⟨[], FileState.emptyFile⟩ 7).2 rfl⟩

/-- C2 counterexample: after adding ids 1 and 2 and completing 1, calling
`task_count_get` with `count = 10` on the one-record collection does NOT
return the id-2 record — it raises `IndexError` (`none`), because the loop
indexes past the end of the non-empty collection. -/
theorem spec_c2_cex :
    task_count_get
        (task_done (task_add (task_add (initDB FileState.absent) "t1" "d1") "t2" "d2") 1) 10 ≠
      some [⟨"t2", "d2", 2⟩] := by decide

/-- C2 (amended): starting from an empty store, after two adds assigning ids
1 and 2 and then `complete(1)`, the collection holds exactly the id-2 record;
`list_prefix(10)` on it fails out of bounds, while `list_prefix(1)` returns
exactly the id-2 record. -/
theorem spec_c2_amended (t1 d1 t2 d2 : String) :
    (task_done (task_add (task_add (initDB FileState.absent) t1 d1) t2 d2) 1).task_data
        = [⟨t2, d2, 2⟩] ∧
    task_count_get (task_done (task_add (task_add (initDB FileState.absent) t1 d1) t2 d2) 1) 10
        = none ∧
    task_count_get (task_done (task_add (task_add (initDB FileState.absent) t1 d1) t2 d2) 1) 1
        = some [⟨t2, d2, 2⟩] :=
  ⟨rfl, rfl, rfl⟩

/-- C3 counterexample: the synthetic no-match record carries the literal info
string `'Нет подоходящих задач'` from the source, not `"No matching
tasks"`. -/
theorem spec_c3_cex :
    task_query (initDB FileState.absent) "xyz" ≠
      [QueryResult.noMatch "No matching tasks" "xyz"] := by decide

/-- C3 (amended): whenever no record matches the substring, `task_query`
returns exactly the one-element sequence holding the synthetic record
`{'info': 'Нет подоходящих задач', 'query': s}` — never an empty sequence. -/
theorem spec_c3_amended (db : TaskDB) (s : String)
    (h : ∀ t ∈ db.task_data, taskMatches s t = false) :
    task_query db s = [QueryResult.noMatch "Нет подоходящих задач" s] := by
  have hq : queryLoop s db.task_data = [] := by
    rw [queryLoop_eq_filter,
      List.filter_eq_nil_iff.mpr (fun a ha => by rw [h a ha]; simp)]
    rfl
  simp [task_query, hq]

/-- C3 witness: a store whose single record does not contain `"xyz"`. -/
theorem spec_c3_witness :
    task_query ⟨[⟨"Buy milk", "2 liters", 1⟩], FileState.emptyFile⟩ "xyz" =
      [QueryResult.noMatch "Нет подоходящих задач" "xyz"] :=
  spec_c3_amended ⟨[⟨"Buy milk", "2 liters", 1⟩], FileState.emptyFile⟩ "xyz" (by decide)

/-- C4: constructing the store over an absent file creates an empty file at
the path and initialises the in-memory collection to the empty sequence,
without error. -/
theorem spec_c4 :
    (initDB FileState.absent).task_data = [] ∧
    (initDB FileState.absent).file = FileState.emptyFile :=
  ⟨rfl, rfl⟩

/-- C5: along any sequence of `task_add` calls in one store lifetime, the
assigned ids are strictly increasing (each new id exceeds every earlier one),
and the first add on an empty store assigns id 1. -/
theorem spec_c5 (db : TaskDB) (ops : List (String × String)) (t d : String)
    (rest : List (String × String)) :
    (assignedIds db ops).Pairwise (· < ·) ∧
    (db.task_data = [] → (assignedIds db ((t, d) :: rest)).head? = some 1) := by
  refine ⟨assignedIds_pairwise ops db, ?_⟩
  intro he
  show some (get_next_index db) = some 1
  unfold get_next_index
  rw [he]

/-- C5 witness: two adds from the empty store assign strictly increasing ids
starting at 1. -/
theorem spec_c5_witness :
    (assignedIds ⟨[], FileState.emptyFile⟩ [("a", "b"), ("c", "d")]).Pairwise (· < ·) ∧
    (assignedIds ⟨[], FileState.emptyFile⟩ [("a", "b"), ("c", "d")]).head? = some 1 :=
  ⟨(spec_c5 ⟨[], FileState.emptyFile⟩ [("a", "b"), ("c", "d")] "a" "b" [("c", "d")]).1,
   (spec_c5 ⟨[], FileState.emptyFile⟩ [("a", "b"), ("c", "d")] "a" "b" [("c", "d")]).2 rfl⟩

/-- C6: every state reachable from an empty collection by `task_add` and
`task_done` operations has pairwise distinct record ids. -/
theorem spec_c6 (fs : FileState) (ops : List Op) :
    ((runOps ⟨[], fs⟩ ops).task_data.map TaskRec.id).Nodup :=
  (@inv_runOps ⟨[], fs⟩ ⟨List.Pairwise.nil, List.Pairwise.nil⟩ ops).2

/-- C7 counterexample: on a store with no matching record the two queries
differ — each returns a synthetic record embedding its own query string, so
`task_query "ABC"` and `task_query "abc"` are not identical there. -/
theorem spec_c7_cex :
    task_query (initDB FileState.absent) "ABC" ≠
      task_query (initDB FileState.absent) "abc" := by decide

/-- C7 (amended): whenever at least one record matches, `task_query` returns
exactly the records whose lowered title-description concatenation contains
the lowered substring, in collection order; and whenever some record matches,
`task_query "ABC"` equals `task_query "abc"`. -/
theorem spec_c7_amended (db : TaskDB) (s : String) :
    (db.task_data.any (taskMatches s) = true →
      task_query db s = (db.task_data.filter (taskMatches s)).map QueryResult.task) ∧
    (db.task_data.any (taskMatches "abc") = true →
      task_query db "ABC" = task_query db "abc") := by
  have hfun : taskMatches "ABC" = taskMatches "abc" := by
    funext u
    unfold taskMatches
    rw [show lowerStr "ABC" = lowerStr "abc" from by decide]
  refine ⟨fun h => task_query_of_any h, fun h => ?_⟩
  have hA : db.task_data.any (taskMatches "ABC") = true := by rw [hfun]; exact h
  rw [task_query_of_any hA, task_query_of_any h, hfun]

/-- C7 witness: a record titled `"Abc"` matches both `"ABC"` and `"abc"`,
and the two queries coincide. -/
theorem spec_c7_witness :
    (task_query ⟨[⟨"Abc", "x", 1⟩], FileState.emptyFile⟩ "ABC" =
      ([⟨"Abc", "x", 1⟩].filter (taskMatches "ABC")).map QueryResult.task) ∧
    task_query ⟨[⟨"Abc", "x", 1⟩], FileState.emptyFile⟩ "ABC" =
      task_query ⟨[⟨"Abc", "x", 1⟩], FileState.emptyFile⟩ "abc" :=
  ⟨(spec_c7_amended ⟨[⟨"Abc", "x", 1⟩], FileState.emptyFile⟩ "ABC").1 (by decide),
   (spec_c7_amended ⟨[⟨"Abc", "x", 1⟩], FileState.emptyFile⟩ "ABC").2 (by decide)⟩

/-- C8: completing an id that no record carries is a silent no-op: the
collection and the backing file are both left exactly as they were (the file
is never rewritten, since `write_data` runs only after a pop). -/
theorem spec_c8 (db : TaskDB) (x : Int) (h : ∀ t ∈ db.task_data, t.id ≠ x) :
    task_done db x = db := by
  unfold task_done
  rw [doneLoop_no_match db.task_data.length db.task_data db.file 0 0 x h]

/-- C8 witness: completing id 2 in a store holding only id 1 changes
nothing. -/
theorem spec_c8_witness :
    task_done ⟨[⟨"a", "b", 1⟩], FileState.emptyFile⟩ 2 =
      ⟨[⟨"a", "b", 1⟩], FileState.emptyFile⟩ :=
  spec_c8 ⟨[⟨"a", "b", 1⟩], FileState.emptyFile⟩ 2 (by decide)

/-- C9: writing the collection and reloading a fresh store over the same
file yields the same records (a permutation, so same records and ids), with
order normalised to descending by id. -/
theorem spec_c9 (db : TaskDB) :
    (initDB (write_data db).file).task_data = sort_data db.task_data ∧
    List.Perm (initDB (write_data db).file).task_data db.task_data ∧
    ((initDB (write_data db).file).task_data).Pairwise idGe :=
  ⟨rfl, sort_data_perm db.task_data, sort_data_pairwise db.task_data⟩

/-- C10: on a non-empty collection the empty substring matches every record,
so `task_query ""` returns all records in their in-memory order and never the
synthetic no-match record. -/
theorem spec_c10 (db : TaskDB) (h : db.task_data ≠ []) :
    task_query db "" = db.task_data.map QueryResult.task := by
  have hall : ∀ t ∈ db.task_data, taskMatches "" t = true := by
    intro t _
    exact containsSub_nil _
  have hany : db.task_data.any (taskMatches "") = true := by
    cases hd : db.task_data with
    | nil => exact absurd hd h
    | cons a as =>
        rw [hd] at hall
        simp [hall a (List.mem_cons_self a as)]
  rw [task_query_of_any hany, List.filter_eq_self.mpr hall]

/-- C10 witness: the empty query on a one-record store returns that record. -/
theorem spec_c10_witness :
    task_query ⟨[⟨"Buy milk", "2 liters", 1⟩], FileState.emptyFile⟩ "" =
      [QueryResult.task ⟨"Buy milk", "2 liters", 1⟩] :=
  spec_c10 ⟨[⟨"Buy milk", "2 liters", 1⟩], FileState.emptyFile⟩ (by decide)
